import Mathlib

/-!
A shallow embedding of the configuration-binding engine of the cleanenv
repository (files cleanenv.go, common.go, env.go, the flag reader and the
finalizer), together with theorems about its behaviour.

Conventions of the embedding:
* Go strings are Lean `String`s; the string functions from the Go standard
  library that the code uses (strings.Split, strings.TrimSpace, strings.ToUpper,
  strings.ToLower, strings.ReplaceAll, strings.HasSuffix, strings.SplitN) are
  re-implemented here by structural recursion over the character list, so that
  every definition evaluates inside the kernel.  Case mapping is modelled for
  ASCII and TrimSpace for the Latin-1 white-space set; all inputs considered in
  the theorems are ASCII.
* Machine integers are modelled as `Nat`/`Int` with explicit range checks of
  strconv (`2 ^ bitSize - 1` bounds), exactly following the strconv.ParseUint /
  ParseInt / ParseBool sources that the repository calls.
* `time.Parse` is kept abstract: every function that can reach it takes an
  explicit argument `tp : String → String → Except GoErr Nat` (layout, value).
  No claim below concerns time parsing.
* Failures are `Except` / an error component; a Go runtime panic is modelled by
  the distinguished error `GoErr.panicked` carrying the runtime message.
-/

/-- Go strings.Split worker for a non-empty separator: structural scan of the
character list; `skip` counts separator characters still to be consumed after a
match, `cur` is the current chunk in reverse. -/
def splitGo (sep : List Char) : List Char → Nat → List Char → List (List Char)
  | [], _, cur => [cur.reverse]
  | c :: rest, skip, cur =>
    match skip with
    | k + 1 => splitGo sep rest k cur
    | 0 =>
      if sep.isPrefixOf (c :: rest) then
        cur.reverse :: splitGo sep rest (sep.length - 1) []
      else
        splitGo sep rest 0 (c :: cur)

/-- Go strings.Split.  For an empty separator Go splits after every rune;
for a non-empty separator it splits around every occurrence. -/
def goSplit (s sep : String) : List String :=
  if sep.data = [] then
    s.data.map (fun c => String.mk [c])
  else
    (splitGo sep.data s.data 0 []).map String.mk

/-- White space as Go unicode.IsSpace decides it on the Latin-1 range
(space, tab, newline, vertical tab, form feed, carriage return, NEL, NBSP). -/
def isSpaceGo (c : Char) : Bool :=
  c = ' ' ∨ c = '\t' ∨ c = '\n' ∨ c = (Char.ofNat 11) ∨ c = (Char.ofNat 12) ∨
  c = '\r' ∨ c = (Char.ofNat 0x85) ∨ c = (Char.ofNat 0xA0)

/-- Go strings.TrimSpace. -/
def goTrimSpace (s : String) : String :=
  String.mk (((s.data.dropWhile isSpaceGo).reverse.dropWhile isSpaceGo).reverse)

/-- ASCII lower-casing of one character (Go strings.ToLower on ASCII input). -/
def asciiToLower (c : Char) : Char :=
  if 'A' ≤ c ∧ c ≤ 'Z' then Char.ofNat (c.toNat + 32) else c

/-- ASCII upper-casing of one character (Go strings.ToUpper on ASCII input). -/
def asciiToUpper (c : Char) : Char :=
  if 'a' ≤ c ∧ c ≤ 'z' then Char.ofNat (c.toNat - 32) else c

/-- Go strings.ToLower (ASCII model). -/
def goToLower (s : String) : String :=
  String.mk (s.data.map asciiToLower)

/-- Go strings.ToUpper (ASCII model). -/
def goToUpper (s : String) : String :=
  String.mk (s.data.map asciiToUpper)

/-- Go strings.HasSuffix. -/
def goHasSuffix (s suffix : String) : Bool :=
  suffix.data.isSuffixOf s.data

/-- Join a list of strings with a separator (Go strings.Join). -/
def goJoin (sep : String) : List String → String
  | [] => ""
  | [x] => x
  | x :: xs => x ++ sep ++ goJoin sep xs

/-- Go strings.ReplaceAll.  For non-empty old this is
Join(Split(s, old), new); for empty old Go inserts new around every rune. -/
def goReplaceAll (s old new : String) : String :=
  if old.data = [] then
    new ++ String.mk ((s.data.map (fun c => c :: new.data)).flatten)
  else
    goJoin new (goSplit s old)

/-- Go strings.SplitN(s, sep, 2): at most two pieces, the second keeps every
later occurrence of the separator. -/
def goSplitN2 (s sep : String) : List String :=
  match goSplit s sep with
  | [] => [s]
  | [x] => [x]
  | x :: xs => [x, goJoin sep xs]

/-- Error values of the embedded code.  `numError` models a strconv
*NumError (function name, offending literal, error kind); `panicked` marks a Go
runtime panic with its message; the remaining constructors are the errors the
repository builds with fmt.Errorf. -/
inductive NumErrKind where
  | errSyn
  | errRange
  | errBase
  | errBitSize
deriving DecidableEq

inductive GoErr where
  | numError (fn num : String) (kind : NumErrKind)
  | invalidMapItem (pair : String)
  | unsupportedType (pkgPath name : String)
  | requiredMissing (fieldName : String)
  | wrongKind (kind : String)
  | timeParseError (layout value : String)
  | panicked (msg : String)

/-- strconv.ParseBool: exact literal set. -/
def goParseBool (s : String) : Except GoErr Bool :=
  if s = "1" ∨ s = "t" ∨ s = "T" ∨ s = "true" ∨ s = "TRUE" ∨ s = "True" then
    .ok true
  else if s = "0" ∨ s = "f" ∨ s = "F" ∨ s = "false" ∨ s = "FALSE" ∨ s = "False" then
    .ok false
  else
    .error (.numError "ParseBool" s .errSyn)

/-- strconv digit decoding of one byte: decimal digits, then letters after the
strconv lower() mask (c | 0x20). -/
def digitValGo (c : Char) : Option Nat :=
  let n := c.toNat
  if 48 ≤ n ∧ n ≤ 57 then some (n - 48)
  else
    let ln := n ||| 0x20
    if 97 ≤ ln ∧ ln ≤ 122 then some (ln - 97 + 10) else none

/-- The digit loop of strconv.ParseUint.  Returns the accumulated value, the
underscore flag, and the first error, mirroring the early returns of the Go
loop ((0, ErrSyntax) and (maxVal, ErrRange)). -/
def parseUintDigits (base0 : Bool) (base cutoff maxV : Nat) :
    List Char → Nat → Bool → (Nat × Bool × Option NumErrKind)
  | [], n, u => (n, u, none)
  | c :: cs, n, u =>
    if c = '_' ∧ base0 then parseUintDigits base0 base cutoff maxV cs n true
    else
      match digitValGo c with
      | none => (0, u, some .errSyn)
      | some d =>
        if base ≤ d then (0, u, some .errSyn)
        else if cutoff ≤ n then (maxV, u, some .errRange)
        else
          let n1 := n * base + d
          if maxV < n1 then (maxV, u, some .errRange)
          else parseUintDigits base0 base cutoff maxV cs n1 u

/-- Body of strconv underscoreOK after sign/prefix handling; `saw` tracks the
kind of the previous rune and `hex` whether hex digits count as digits. -/
def underscoreOKAux (hex : Bool) : List Char → Char → Bool
  | [], saw => saw ≠ '_'
  | c :: cs, saw =>
    if ('0' ≤ c ∧ c ≤ '9') ∨ (hex ∧ 97 ≤ (c.toNat ||| 0x20) ∧ (c.toNat ||| 0x20) ≤ 102) then
      underscoreOKAux hex cs '0'
    else if c = '_' then
      if saw ≠ '0' then false else underscoreOKAux hex cs '_'
    else if saw = '_' then false
    else underscoreOKAux hex cs '!'

/-- strconv underscoreOK: underscores only between digits, or between a base
prefix and a digit. -/
def underscoreOK (s : String) : Bool :=
  let chars :=
    match s.data with
    | c :: rest => if c = '-' ∨ c = '+' then rest else c :: rest
    | [] => []
  match chars with
  | '0' :: c :: rest =>
    let lc := c.toNat ||| 0x20
    if lc = 98 ∨ lc = 111 ∨ lc = 120 then underscoreOKAux (lc = 120) rest '0'
    else underscoreOKAux false chars '^'
  | _ => underscoreOKAux false chars '^'

/-- Base detection and prefix stripping of strconv.ParseUint for base 0:
0b/0o/0x need at least one digit after them (len(s) >= 3 in the source); a bare
leading 0 selects legacy octal. -/
def detectBase (chars : List Char) : Nat × List Char :=
  match chars with
  | '0' :: rest =>
    match rest with
    | c :: rest2 =>
      let lc := c.toNat ||| 0x20
      if rest2 ≠ [] ∧ lc = 98 then (2, rest2)
      else if rest2 ≠ [] ∧ lc = 111 then (8, rest2)
      else if rest2 ≠ [] ∧ lc = 120 then (16, rest2)
      else (8, c :: rest2)
    | [] => (8, [])
  | _ => (10, chars)

/-- strconv.ParseUint(s, base, bitSize), value-and-error return as in Go.
`bitSize = 0` means the platform int size (64). -/
def goParseUint (s : String) (base bitSize : Nat) : Nat × Option GoErr :=
  if s = "" then (0, some (.numError "ParseUint" s .errSyn))
  else
    let base0 := base = 0
    let bp : Nat × List Char :=
      if 2 ≤ base ∧ base ≤ 36 then (base, s.data)
      else if base = 0 then detectBase s.data
      else (0, [])
    if ¬ (2 ≤ base ∧ base ≤ 36) ∧ base ≠ 0 then
      (0, some (.numError "ParseUint" s .errBase))
    else
      let bitSize1 := if bitSize = 0 then 64 else bitSize
      if 64 < bitSize1 then (0, some (.numError "ParseUint" s .errBitSize))
      else
        let maxV := 2 ^ bitSize1 - 1
        let cutoff := maxV / bp.1 + 1
        match parseUintDigits base0 bp.1 cutoff maxV bp.2 0 false with
        | (v, _, some .errRange) => (v, some (.numError "ParseUint" s .errRange))
        | (v, _, some k) => (v, some (.numError "ParseUint" s k))
        | (n, u, none) =>
          if u ∧ ¬ underscoreOK s then (0, some (.numError "ParseUint" s .errSyn))
          else (n, none)

/-- strconv.ParseInt(s, base, bitSize): sign handling around ParseUint, with
the signed range checks; a non-range ParseUint error is relabelled to ParseInt
with the original literal. -/
def goParseInt (s : String) (base bitSize : Nat) : Int × Option GoErr :=
  if s = "" then (0, some (.numError "ParseInt" s .errSyn))
  else
    let sign : Bool × List Char :=
      match s.data with
      | '+' :: rest => (false, rest)
      | '-' :: rest => (true, rest)
      | l => (false, l)
    let neg := sign.1
    let pu := goParseUint (String.mk sign.2) base bitSize
    let un := pu.1
    match pu.2 with
    | some (.numError _ _ k) =>
      if k ≠ .errRange then (0, some (.numError "ParseInt" s k))
      else goParseIntTail s neg un bitSize
    | some e => (0, some e)
    | none => goParseIntTail s neg un bitSize
where
  /-- The range checks after ParseUint returned (they also run when ParseUint
  reported ErrRange, in which case un is the unsigned maximum). -/
  goParseIntTail (s0 : String) (neg : Bool) (un bitSize : Nat) : Int × Option GoErr :=
    let bitSize1 := if bitSize = 0 then 64 else bitSize
    let cutoff : Nat := 2 ^ (bitSize1 - 1)
    if ¬ neg ∧ cutoff ≤ un then ((cutoff : Int) - 1, some (.numError "ParseInt" s0 .errRange))
    else if neg ∧ cutoff < un then (-(cutoff : Int), some (.numError "ParseInt" s0 .errRange))
    else ((if neg then -(un : Int) else (un : Int)), none)

/-- The target-type universe of the coercer: the reflect kinds the repository
dispatches on, restricted to the kinds the theorems below exercise.  `int` and
`uint` carry reflect's Bits(); `timeT` is the struct time.Time; `structT` is
any other struct kind (package path and name); `unsupported` stands for the
kinds that reach the default branch of parseValue (chan, func, complex, ...).
The embedded universe contains no implementor of the Setter capability, so the
Setter check at the top of parseValue is the identity here. -/
inductive Ty where
  | string
  | bool
  | int (bits : Nat)
  | uint (bits : Nat)
  | slice (elem : Ty)
  | mapT (key val : Ty)
  | timeT
  | structT (pkgPath name : String)
  | unsupported (pkgPath name : String)
deriving DecidableEq

/-- Runtime values held by record fields.  A nil slice/map (the Go zero value)
is `sliceV none` / `mapV none`; MakeSlice/MakeMap produce `some`.  `timeV`
carries the abstract timestamp produced by the abstract time.Parse; `structV`
is an opaque value of a non-time struct; `otherV` the (nil) zero value of an
unsupported kind. -/
inductive Value where
  | str (s : String)
  | boolV (b : Bool)
  | intV (n : Int)
  | uintV (n : Nat)
  | timeV (n : Nat)
  | structV (pkgPath name : String)
  | otherV
  | sliceV (elems : Option (List Value))
  | mapV (pairs : Option (List (Value × Value)))

/-- The zero value of each type (reflect.New(t).Elem(), fresh slice elements). -/
def zeroValue : Ty → Value
  | .string => .str ""
  | .bool => .boolV false
  | .int _ => .intV 0
  | .uint _ => .uintV 0
  | .slice _ => .sliceV none
  | .mapT _ _ => .mapV none
  | .timeT => .timeV 0
  | .structT p n => .structV p n
  | .unsupported _ _ => .otherV

/-- Go map-key equality for the key kinds a Go map can legally have
(slices/maps/functions are not comparable in Go and cannot be map keys, so the
container cases are unreachable as keys). -/
def keyEq : Value → Value → Bool
  | .str a, .str b => a = b
  | .boolV a, .boolV b => a = b
  | .intV a, .intV b => a = b
  | .uintV a, .uintV b => a = b
  | .timeV a, .timeV b => a = b
  | .structV p a, .structV q b => p = q ∧ a = b
  | _, _ => false

/-- reflect SetMapIndex on the association-list model: overwrite the entry
with an equal key, else append. -/
def mapInsert : List (Value × Value) → Value → Value → List (Value × Value)
  | [], k, v => [(k, v)]
  | (k1, v1) :: rest, k, v =>
    if keyEq k1 k then (k, v) :: rest else (k1, v1) :: mapInsert rest k v

/-- time.RFC3339, the default layout of the time.Time branch of parseValue. -/
def rfc3339 : String := "2006-01-02T15:04:05Z07:00"

/-- UTF-8 encoding of one character, as Go []byte(string) produces it. -/
def utf8Bytes (c : Char) : List Nat :=
  let v := c.toNat
  if v < 0x80 then [v]
  else if v < 0x800 then
    [0xC0 ||| (v >>> 6), 0x80 ||| (v &&& 0x3F)]
  else if v < 0x10000 then
    [0xE0 ||| (v >>> 12), 0x80 ||| ((v >>> 6) &&& 0x3F), 0x80 ||| (v &&& 0x3F)]
  else
    [0xF0 ||| (v >>> 18), 0x80 ||| ((v >>> 12) &&& 0x3F),
     0x80 ||| ((v >>> 6) &&& 0x3F), 0x80 ||| (v &&& 0x3F)]

/-- The bytes of a Go string ([]byte(value)). -/
def goBytes (s : String) : List Nat :=
  (s.data.map utf8Bytes).flatten

/-- The element loop of parseSlice: parse each substring into a fresh
zero-valued element, aborting on the first failure.  `pv` is the recursive
parseValue call for the element type. -/
def parseElems (pv : String → Except GoErr Value) : List String → Except GoErr (List Value)
  | [] => .ok []
  | s :: rest =>
    match pv s with
    | .error e => .error e
    | .ok v =>
      match parseElems pv rest with
      | .error e => .error e
      | .ok vs => .ok (v :: vs)

/-- parseSlice of common.go: a byte slice takes the raw bytes with no
splitting; otherwise a raw string with empty TrimSpace gives the empty slice
(MakeSlice(0,0)), else the string is split on the separator and each piece is
parsed recursively. -/
def parseSlice (elemTy : Ty) (pv : String → Except GoErr Value) (value sep : String) :
    Except GoErr Value :=
  if elemTy = .uint 8 then
    .ok (.sliceV (some ((goBytes value).map Value.uintV)))
  else if (goTrimSpace value).length ≠ 0 then
    match parseElems pv (goSplit value sep) with
    | .error e => .error e
    | .ok vs => .ok (.sliceV (some vs))
  else
    .ok (.sliceV (some []))

/-- The pair loop of parseMap: SplitN(pair, ":", 2), error on a pair without a
colon, parse key and value into fresh zero values, SetMapIndex. -/
def parsePairs (pvK pvV : String → Except GoErr Value) :
    List String → List (Value × Value) → Except GoErr (List (Value × Value))
  | [], acc => .ok acc
  | pair :: rest, acc =>
    match goSplitN2 pair ":" with
    | [k0, v0] =>
      match pvK k0 with
      | .error e => .error e
      | .ok k =>
        match pvV v0 with
        | .error e => .error e
        | .ok v => parsePairs pvK pvV rest (mapInsert acc k v)
    | _ => .error (.invalidMapItem pair)

/-- parseMap of common.go: MakeMap, and unless TrimSpace of the raw string is
empty, split on the separator and run the pair loop. -/
def parseMap (pvK pvV : String → Except GoErr Value) (value sep : String) :
    Except GoErr Value :=
  if (goTrimSpace value).length ≠ 0 then
    match parsePairs pvK pvV (goSplit value sep) [] with
    | .error e => .error e
    | .ok ps => .ok (.mapV (some ps))
  else
    .ok (.mapV (some []))

/-- parseValue of common.go: dispatch on the target kind.  `tp` is the
abstract time.Parse; `fieldVal` is the current contents of the target field
(the reflect.Value handle), returned unchanged exactly where the Go code
returns without writing.  Note the Struct case: for a struct other than
time.Time the switch arm matches, its inner condition fails, and the function
returns nil without touching the field. -/
def parseValue (tp : String → String → Except GoErr Nat) :
    Ty → Value → String → String → Option String → Except GoErr Value
  | .string, _, value, _, _ => .ok (.str value)
  | .bool, _, value, _, _ =>
    match goParseBool value with
    | .error e => .error e
    | .ok b => .ok (.boolV b)
  | .int bits, _, value, _, _ =>
    match goParseInt value 0 bits with
    | (_, some e) => .error e
    | (n, none) => .ok (.intV n)
  | .uint bits, _, value, _, _ =>
    match goParseUint value 0 bits with
    | (_, some e) => .error e
    | (n, none) => .ok (.uintV n)
  | .slice elem, _, value, sep, layout =>
    parseSlice elem (fun s => parseValue tp elem (zeroValue elem) s sep layout) value sep
  | .mapT kt vt, _, value, sep, layout =>
    parseMap (fun s => parseValue tp kt (zeroValue kt) s sep layout)
      (fun s => parseValue tp vt (zeroValue vt) s sep layout) value sep
  | .timeT, _, value, _, layout =>
    let l := match layout with | some l => l | none => rfc3339
    match tp l value with
    | .error e => .error e
    | .ok t => .ok (.timeV t)
  | .structT _ _, fieldVal, _, _, _ => .ok fieldVal
  | .unsupported pkgPath name, _, _, _, _ => .error (.unsupportedType pkgPath name)

/-- A fixed instance of the abstract time.Parse, used where closed statements
need one; no claim depends on its behaviour. -/
def timeParseNone : String → String → Except GoErr Nat :=
  fun l v => .error (.timeParseError l v)

/-- The struct tags of one field, as reflect's Tag.Lookup / Tag.Get see them:
each supported tag is present (`some`, with its literal value) or absent.
`envPre` is the env-prefix tag of a nested-struct field. -/
structure GoTag where
  env : Option String := none
  envLayout : Option String := none
  envDefault : Option String := none
  envSeparator : Option String := none
  envDescription : Option String := none
  envRequired : Option String := none
  envPre : Option String := none

mutual
/-- A field of a Go struct: either of struct kind (a nested record, excluding
time.Time) or a leaf of any other kind, time.Time included (`Ty.timeT`).
`exported` is false for an unexported (lower-case) field name, making CanSet
false and Interface-taking panic.  A leaf carries the field's current value
(the live record the reflect handle points into). -/
inductive GoField where
  | leaf (name : String) (tag : GoTag) (ty : Ty) (val : Value) (exported : Bool)
  | nested (name : String) (tag : GoTag) (fields : GoFields) (exported : Bool)
inductive GoFields where
  | nil
  | cons (f : GoField) (fs : GoFields)
end

/-- structMeta of common.go: the descriptor of one bindable leaf field.
`fieldValue` together with `ty` models the reflect.Value handle (each settable
leaf has exactly one descriptor, so carrying the value inside the descriptor
and threading updates is equivalent to in-place mutation). -/
structure StructMeta where
  envList : List String
  fieldName : String
  fieldValue : Value
  ty : Ty
  defValue : Option String
  layout : Option String
  separator : String
  description : String
  required : Bool

/-- DefaultSeparator of cleanenv.go. -/
def DefaultSeparator : String := ","

/-- The body of the field loop of readStructMetadata for one worklist node:
returns the descriptors of the node's leaves and the nested nodes pushed onto
the worklist (each with the accumulated prefix extended by its env-prefix
tag).  A nested-struct field is pushed before the CanSet check; taking
fld.Addr().Interface() of an unexported field panics in reflect, modelled by
the `panicked` error.  An unexported leaf is skipped by the CanSet check. -/
def processFields (sPre : String) : GoFields → Except GoErr (List StructMeta × List (GoFields × String))
  | .nil => .ok ([], [])
  | .cons f fs =>
    match f with
    | .nested _ tag nfs exported =>
      if exported then
        match processFields sPre fs with
        | .error e => .error e
        | .ok (ms, pushed) =>
          .ok (ms, (nfs, sPre ++ (match tag.envPre with | some p => p | none => "")) :: pushed)
      else
        .error (.panicked
          "reflect.Value.Interface: cannot return value obtained from unexported field or method")
    | .leaf name tag ty val exported =>
      if exported then
        let layout := if ty = .timeT then tag.envLayout else none
        let separator := match tag.envSeparator with | some s => s | none => DefaultSeparator
        let envList :=
          match tag.env with
          | some envs =>
            if envs.length ≠ 0 then
              let l := goSplit envs DefaultSeparator
              if sPre ≠ "" then l.map (fun e => sPre ++ e) else l
            else []
          | none => []
        match processFields sPre fs with
        | .error e => .error e
        | .ok (ms, pushed) =>
          .ok ({ envList := envList, fieldName := name, fieldValue := val, ty := ty,
                 defValue := tag.envDefault, layout := layout, separator := separator,
                 description := (match tag.envDescription with | some d => d | none => ""),
                 required := tag.envRequired.isSome } :: ms, pushed)
      else
        processFields sPre fs

mutual
/-- Number of nested-struct nodes in a record, used to bound the worklist
loop of readStructMetadata (the loop runs once per node ever pushed). -/
def GoField.nodeCount : GoField → Nat
  | .leaf _ _ _ _ _ => 0
  | .nested _ _ fs _ => 1 + GoFields.nodeCount fs
def GoFields.nodeCount : GoFields → Nat
  | .nil => 0
  | .cons f fs => GoField.nodeCount f + GoFields.nodeCount fs
end

/-- The worklist loop of readStructMetadata (for i := 0; i < len(cfgStack);
i++ over a stack that grows at the end): one fuel unit per processed node.
readStructMetadata always supplies more fuel than nodes, so the out-of-fuel
marker is unreachable. -/
def readStructMetadataAux : Nat → List (GoFields × String) → Except GoErr (List StructMeta)
  | 0, _ => .error (.panicked "worklist out of fuel")
  | _ + 1, [] => .ok []
  | fuel + 1, (fields, pre) :: rest =>
    match processFields pre fields with
    | .error e => .error e
    | .ok (ms, pushed) =>
      match readStructMetadataAux fuel (rest ++ pushed) with
      | .error e => .error e
      | .ok more => .ok (ms ++ more)

/-- readStructMetadata of common.go on a struct root: breadth-first worklist
seeded with the root and the empty prefix. -/
def readStructMetadata (root : GoFields) : Except GoErr (List StructMeta) :=
  readStructMetadataAux (GoFields.nodeCount root + 2) [(root, "")]

/-- isZero of common.go on the embedded value universe: numbers and strings by
their zero, slices/maps/other reference kinds by nil-ness.  The struct case of
the source recurses over the fields; for the abstract timeV this is modelled
as the zero timestamp, and an opaque structV (never a descriptor value) as
zero. -/
def isZero : Value → Bool
  | .boolV b => !b
  | .intV n => n == 0
  | .uintV n => n == 0
  | .str s => s.length == 0
  | .timeV n => n == 0
  | .structV _ _ => true
  | .otherV => true
  | .sliceV o => o.isNone
  | .mapV o => o.isNone

/-- The candidate-key loop of readEnvVars: first environment hit wins. -/
def lookupFirstEnv (pre : String) (env : String → Option String) : List String → Option String
  | [] => none
  | e :: rest =>
    match env (pre ++ e) with
    | some v => some v
    | none => lookupFirstEnv pre env rest

/-- readEnvVars of env.go: for each descriptor look up prefix+candidate keys in
order; absence skips the descriptor; a found raw value is coerced into the
field, and a coercion failure returns immediately (fields already written stay
written, later descriptors are untouched).  The returned list is the
descriptor list with the performed mutations; the second component is the
error. -/
def readEnvVars (tp : String → String → Except GoErr Nat) (env : String → Option String)
    (pre : String) : List StructMeta → List StructMeta × Option GoErr
  | [] => ([], none)
  | m :: rest =>
    match lookupFirstEnv pre env m.envList with
    | none =>
      let r := readEnvVars tp env pre rest
      (m :: r.1, r.2)
    | some raw =>
      match parseValue tp m.ty m.fieldValue raw m.separator m.layout with
      | .error e => (m :: rest, some e)
      | .ok v =>
        let r := readEnvVars tp env pre rest
        ({ m with fieldValue := v } :: r.1, r.2)

/-- finalize: the required check (before any default handling), then the
default literal coerced into a still-zero field; both failure modes return
immediately. -/
def finalize (tp : String → String → Except GoErr Nat) :
    List StructMeta → List StructMeta × Option GoErr
  | [] => ([], none)
  | m :: rest =>
    if m.required && isZero m.fieldValue then
      (m :: rest, some (.requiredMissing m.fieldName))
    else if isZero m.fieldValue then
      match m.defValue with
      | some d =>
        match parseValue tp m.ty m.fieldValue d m.separator m.layout with
        | .error e => (m :: rest, some e)
        | .ok v =>
          let r := finalize tp rest
          ({ m with fieldValue := v } :: r.1, r.2)
      | none =>
        let r := finalize tp rest
        (m :: r.1, r.2)
    else
      let r := finalize tp rest
      (m :: r.1, r.2)

/-- toPrefix of common.go (the caller-level application prefix): empty stays
empty, otherwise an underscore is appended unless already present and the
result is upper-cased. -/
def toPrefixed (name : String) : String :=
  if name = "" then ""
  else goToUpper (if goHasSuffix name "_" then name else name ++ "_")

/-- ReadEnv of cleanenv.go: readStructMetadata, readEnvVars with the
application prefix, finalize.  The first component is the final descriptor
list (the record's bound fields), the second the returned error. -/
def ReadEnv (tp : String → String → Except GoErr Nat) (cfg : GoFields) (appname : String)
    (env : String → Option String) : List StructMeta × Option GoErr :=
  match readStructMetadata cfg with
  | .error e => ([], some e)
  | .ok meta =>
    let r := readEnvVars tp env (toPrefixed appname) meta
    match r.2 with
    | some e => (r.1, some e)
    | none => finalize tp r.1

/-- toFlagName of the flag reader: the lower-cased field name, overridden by
the first candidate key (lower-cased, underscores replaced by hyphens) when
candidate keys exist. -/
def toFlagName (name : String) (aliases : List String) : String :=
  match aliases with
  | [] => goToLower name
  | a :: _ => goReplaceAll (goToLower a) "_" "-"

/-- Association-list store and lookup for the Go maps of readFlagVars. -/
def assocSet : List (String × String) → String → String → List (String × String)
  | [], k, v => [(k, v)]
  | (k1, v1) :: rest, k, v =>
    if k1 = k then (k, v) :: rest else (k1, v1) :: assocSet rest k v

def assocGet : List (String × String) → String → Option String
  | [], _ => none
  | (k1, v1) :: rest, k => if k1 = k then some v1 else assocGet rest k

/-- The registration loop of readFlagVars: one flag per descriptor named by
toFlagName; a name already registered is skipped (the descriptor gets no flag
and, crucially, no entry in the values map); the values map is keyed by the
descriptor's fieldName and holds the registered flag (the *string returned by
flagSet.String). -/
def registerFlags : List StructMeta → List String → List (String × String) →
    List String × List (String × String)
  | [], names, values => (names, values)
  | m :: rest, names, values =>
    let flagName := toFlagName m.fieldName m.envList
    if names.contains flagName then registerFlags rest names values
    else registerFlags rest (flagName :: names) (assocSet values m.fieldName flagName)

/-- The binding loop of readFlagVars: flagVal := *values[meta.fieldName] is
dereferenced before any check, so a fieldName without a values entry is a nil
pointer dereference (a runtime panic).  `parsed` gives the contents of each
registered flag variable after parsing; in the source, flag.Parse() parses the
global CommandLine set while the flags live on a fresh flagSet, so every
registered variable in fact still holds its default ""; `parsed` keeps this
abstract. -/
def readFlagVarsLoop (tp : String → String → Except GoErr Nat) (parsed : String → String)
    (values : List (String × String)) : List StructMeta → List StructMeta × Option GoErr
  | [] => ([], none)
  | m :: rest =>
    match assocGet values m.fieldName with
    | none =>
      (m :: rest, some (.panicked
        "runtime error: invalid memory address or nil pointer dereference"))
    | some fn =>
      let flagVal := parsed fn
      if flagVal = "" then
        let r := readFlagVarsLoop tp parsed values rest
        (m :: r.1, r.2)
      else
        match parseValue tp m.ty m.fieldValue flagVal m.separator m.layout with
        | .error e => (m :: rest, some e)
        | .ok v =>
          let r := readFlagVarsLoop tp parsed values rest
          ({ m with fieldValue := v } :: r.1, r.2)

/-- readFlagVars: registration pass, flag.Parse(), binding pass. -/
def readFlagVars (tp : String → String → Except GoErr Nat) (parsed : String → String)
    (metas : List StructMeta) : List StructMeta × Option GoErr :=
  let reg := registerFlags metas [] []
  readFlagVarsLoop tp parsed reg.2 metas


/-- The field values of a descriptor list (the record's bound leaves in
worklist order). -/
def fieldVals (l : List StructMeta) : List Value :=
  l.map (fun m => m.fieldValue)

/-- An environment defining exactly one variable. -/
def envOnly (k v : String) : String → Option String :=
  fun q => if q = k then some v else none

/-- The record of the end-to-end claim: Port int, candidate key PORT, default
literal 8080, required, initial value 0. -/
def cfgPortRequired : GoFields :=
  .cons (.leaf "Port" { env := some "PORT", envDefault := some "8080", envRequired := some "true" }
    (.int 64) (.intV 0) true) .nil

/-- The same record without the required tag (the non-required variant of the
default-overwrite claim). -/
def cfgPortDefault : GoFields :=
  .cons (.leaf "Port" { env := some "PORT", envDefault := some "8080" }
    (.int 64) (.intV 0) true) .nil

/-- A nested group with declared prefix DB_ whose inner field has candidate
key PORT. -/
def cfgNestedDB : GoFields :=
  .cons (.nested "DB" { envPre := some "DB_" }
    (.cons (.leaf "Port" { env := some "PORT" } (.int 64) (.intV 0) true) .nil) true) .nil

/-- A record with an unexported field of nested-record type. -/
def cfgUnexportedNested : GoFields :=
  .cons (.nested "db" {}
    (.cons (.leaf "Port" { env := some "PORT" } (.int 64) (.intV 0) true) .nil) false) .nil

/-- A record whose only field is an unexported leaf (like the field `local`
of the repository's own test). -/
def cfgUnexportedLeaf : GoFields :=
  .cons (.leaf "local" { env := some "TEST2", envDefault := some "1" } (.int 64) (.intV 0) false)
    .nil

/-- Two descriptors with distinct field names whose candidate key lists both
start with PORT, so both synthesize the flag name "port". -/
def metaFlagA : StructMeta :=
  { envList := ["PORT"], fieldName := "A", fieldValue := .intV 0, ty := .int 64,
    defValue := none, layout := none, separator := ",", description := "", required := false }

def metaFlagB : StructMeta :=
  { metaFlagA with fieldName := "B" }

/-- Descriptors for the abort-semantics claim: a string field bound before the
failing one, an int field whose raw value cannot be parsed, and a trailing
field never reached. -/
def metaStrOK : StructMeta :=
  { envList := ["S"], fieldName := "S", fieldValue := .str "", ty := .string,
    defValue := none, layout := none, separator := ",", description := "", required := false }

def metaIntBad : StructMeta :=
  { envList := ["B"], fieldName := "B", fieldValue := .intV 0, ty := .int 64,
    defValue := none, layout := none, separator := ",", description := "", required := false }

def metaTrailing : StructMeta :=
  { envList := ["C"], fieldName := "C", fieldValue := .intV 0, ty := .int 64,
    defValue := none, layout := none, separator := ",", description := "", required := false }

/-- The environment of the abort-semantics witness: S parses, B does not. -/
def envAbort : String → Option String :=
  fun k => if k = "S" then some "x" else if k = "B" then some "zz" else none

/-- A zero-valued non-required int descriptor with a default literal, for the
finalization claim. -/
def metaZeroDefault : StructMeta :=
  { envList := ["PORT"], fieldName := "Port", fieldValue := .intV 0, ty := .int 64,
    defValue := some "8080", layout := none, separator := ",", description := "",
    required := false }

/-- C1, counterexample: for the record with field Port int, key PORT, default
"8080", required, and no environment variable set, ReadEnv does not leave
Port = 8080 with no error: it returns the required-field error and leaves
Port = 0 (finalize runs the required check before applying defaults). -/
theorem claim1_counterexample :
    (ReadEnv timeParseNone cfgPortRequired "" (fun _ => none)).2 =
      some (.requiredMissing "Port") ∧
    fieldVals (ReadEnv timeParseNone cfgPortRequired "" (fun _ => none)).1 = [.intV 0] :=
  ⟨rfl, rfl⟩

/-- C1, amended: with no environment variable PORT, ReadEnv on that record
returns the error that the required field Port is not provided and leaves the
field at 0 (the default is not applied); with PORT=9090 set, the field ends
equal to 9090 and no error is returned. -/
theorem claim1_amended :
    (ReadEnv timeParseNone cfgPortRequired "" (fun _ => none)).2 =
      some (.requiredMissing "Port") ∧
    fieldVals (ReadEnv timeParseNone cfgPortRequired "" (fun _ => none)).1 = [.intV 0] ∧
    (ReadEnv timeParseNone cfgPortRequired "" (envOnly "PORT" "9090")).2 = none ∧
    fieldVals (ReadEnv timeParseNone cfgPortRequired "" (envOnly "PORT" "9090")).1 =
      [.intV 9090] :=
  ⟨rfl, rfl, rfl, rfl⟩

/-- C2, counterexample: with caller-level application prefix "APP", the lookup
key of the DB_-prefixed nested field is not "APPDB_PORT": an environment
defining exactly APPDB_PORT=9090 leaves the field at 0 (and ReadEnv returns no
error), so no lookup of that key happened. -/
theorem claim2_counterexample :
    fieldVals (ReadEnv timeParseNone cfgNestedDB "APP" (envOnly "APPDB_PORT" "9090")).1 =
      [.intV 0] ∧
    (ReadEnv timeParseNone cfgNestedDB "APP" (envOnly "APPDB_PORT" "9090")).2 = none :=
  ⟨rfl, rfl⟩

/-- C2, amended: the nested group with declared prefix "DB_" and inner key
"PORT" resolves the combined candidate key "DB_PORT"; the environment lookup
key is "DB_PORT" when the application prefix is empty and "APP_DB_PORT" when
it is "APP" (toPrefix appends an underscore before concatenation). -/
theorem claim2_amended :
    (readStructMetadata cfgNestedDB).map (fun l => l.map (fun m => m.envList)) =
      .ok [["DB_PORT"]] ∧
    toPrefixed "APP" = "APP_" ∧
    fieldVals (ReadEnv timeParseNone cfgNestedDB "" (envOnly "DB_PORT" "9090")).1 =
      [.intV 9090] ∧
    fieldVals (ReadEnv timeParseNone cfgNestedDB "APP" (envOnly "APP_DB_PORT" "9090")).1 =
      [.intV 9090] ∧
    (ReadEnv timeParseNone cfgNestedDB "APP" (envOnly "APP_DB_PORT" "9090")).2 = none :=
  ⟨rfl, rfl, rfl, rfl, rfl⟩

/-- C3: an unexported field of nested-record type is not skipped: the
introspector pushes it with fld.Addr().Interface() before the CanSet check,
and reflect panics on an unexported field, so readStructMetadata does not
return normally.  An unexported leaf field is indeed skipped silently. -/
theorem claim3_unexported_nested_panics :
    readStructMetadata cfgUnexportedNested =
      .error (.panicked
        "reflect.Value.Interface: cannot return value obtained from unexported field or method") ∧
    readStructMetadata cfgUnexportedLeaf = .ok [] :=
  ⟨rfl, rfl⟩

/-- C4, counterexample: for a record target other than time.Time, parseValue
does not fail with a CoercionError: the Struct arm of the switch matches, its
time.Time condition fails, and the function returns nil having written
nothing (the field keeps its previous value). -/
theorem claim4_counterexample :
    parseValue timeParseNone (.structT "main" "Database") (.structV "main" "Database")
      "anything" "," none = .ok (.structV "main" "Database") :=
  rfl

/-- C4, amended: for every target of record kind other than time.Time, value
coercion silently succeeds without writing a decoded value (the field's prior
contents are returned unchanged); only the non-record unsupported kinds reach
the default branch and fail with the error naming the type. -/
theorem claim4_amended :
    ∀ (tp : String → String → Except GoErr Nat) (p n : String) (cur : Value)
      (raw sep : String) (layout : Option String),
      parseValue tp (.structT p n) cur raw sep layout = .ok cur ∧
      parseValue tp (.unsupported p n) cur raw sep layout =
        .error (.unsupportedType p n) :=
  fun _ _ _ _ _ _ _ => ⟨rfl, rfl⟩

/-- C5: when two descriptors with distinct field names synthesize the same
flag name, the duplicate is dropped at registration (only one name is
registered), but readFlagVars does not complete normally: the binding loop
dereferences values[fieldName] of the dropped descriptor, which was never
stored, so the function panics with a nil pointer dereference instead of
returning. -/
theorem claim5_duplicate_flag_panics :
    (registerFlags [metaFlagA, metaFlagB] [] []).1 = ["port"] ∧
    readFlagVars timeParseNone (fun _ => "") [metaFlagA, metaFlagB] =
      ([metaFlagA, metaFlagB],
       some (.panicked "runtime error: invalid memory address or nil pointer dereference")) :=
  ⟨rfl, rfl⟩

/-- C6: for every map-typed field, coercing "" (for any key/value types,
separator and layout) yields an empty mapping; coercing "k1:v1,k2:v2" with the
default separator yields exactly those two pairs; each entry is split on its
first colon only; an entry lacking a colon fails with the invalid-map-item
error; key and value are coerced independently by their own types; on
duplicate keys the last write wins. -/
theorem claim6_map_coercion :
    (∀ (tp : String → String → Except GoErr Nat) (kt vt : Ty) (cur : Value)
       (sep : String) (layout : Option String),
       parseValue tp (.mapT kt vt) cur "" sep layout = .ok (.mapV (some []))) ∧
    parseValue timeParseNone (.mapT .string .string) (.mapV none) "k1:v1,k2:v2" "," none =
      .ok (.mapV (some [(.str "k1", .str "v1"), (.str "k2", .str "v2")])) ∧
    parseValue timeParseNone (.mapT .string .string) (.mapV none) "a:b:c" "," none =
      .ok (.mapV (some [(.str "a", .str "b:c")])) ∧
    parseValue timeParseNone (.mapT .string .string) (.mapV none) "k1v1" "," none =
      .error (.invalidMapItem "k1v1") ∧
    parseValue timeParseNone (.mapT .string (.int 64)) (.mapV none) "a:1,b:2" "," none =
      .ok (.mapV (some [(.str "a", .intV 1), (.str "b", .intV 2)])) ∧
    parseValue timeParseNone (.mapT .string .string) (.mapV none) "k:1,k:2" "," none =
      .ok (.mapV (some [(.str "k", .str "2")])) :=
  ⟨fun _ _ _ _ _ _ => rfl, rfl, rfl, rfl, rfl, rfl⟩

/-- C8: for a byte-slice target ([]uint8), coercion takes the raw string's
bytes directly for every raw value, separator and layout (no separator
splitting); in particular "hello" yields exactly the five bytes
104, 101, 108, 108, 111. -/
theorem claim8_byte_slice :
    (∀ (tp : String → String → Except GoErr Nat) (cur : Value) (value sep : String)
       (layout : Option String),
       parseValue tp (.slice (.uint 8)) cur value sep layout =
         .ok (.sliceV (some ((goBytes value).map Value.uintV)))) ∧
    parseValue timeParseNone (.slice (.uint 8)) (.sliceV none) "hello" "," none =
      .ok (.sliceV (some [.uintV 104, .uintV 101, .uintV 108, .uintV 108, .uintV 111])) :=
  ⟨fun _ _ _ _ _ => rfl, rfl⟩

/-- If some element of the split list fails to coerce, the element loop of
parseSlice fails (with the error of whichever failing element comes first). -/
theorem parseElems_error_of_mem (pv : String → Except GoErr Value) (l : List String)
    (s : String) (e : GoErr) (hs : s ∈ l) (hpv : pv s = .error e) :
    ∃ e2, parseElems pv l = .error e2 := by
  induction l with
  | nil => cases hs
  | cons x rest ih =>
    cases hx : pv x with
    | error e2 => exact ⟨e2, by simp [parseElems, hx]⟩
    | ok v =>
      have hmem : s ∈ rest := by
        cases hs with
        | head => simp [hpv] at hx
        | tail _ h => exact h
      obtain ⟨e2, h2⟩ := ih hmem
      exact ⟨e2, by simp [parseElems, hx, h2]⟩

/-- C7: for every non-byte element type, coercing "" yields the empty
sequence; coercing "a,b,c" with the default separator equals coercing "a",
"b", "c" individually into fresh zero elements and concatenating; and if the
coercion of some split element fails, the whole slice coercion fails. -/
theorem claim7_slice_coercion :
    (∀ (tp : String → String → Except GoErr Nat) (elem : Ty) (cur : Value) (sep : String)
       (layout : Option String), elem ≠ .uint 8 →
       parseValue tp (.slice elem) cur "" sep layout = .ok (.sliceV (some []))) ∧
    (∀ (tp : String → String → Except GoErr Nat) (elem : Ty) (cur : Value)
       (layout : Option String), elem ≠ .uint 8 →
       parseValue tp (.slice elem) cur "a,b,c" "," layout =
         (do
           let x ← parseValue tp elem (zeroValue elem) "a" "," layout
           let y ← parseValue tp elem (zeroValue elem) "b" "," layout
           let z ← parseValue tp elem (zeroValue elem) "c" "," layout
           pure (Value.sliceV (some ([x] ++ [y] ++ [z]))))) ∧
    (∀ (tp : String → String → Except GoErr Nat) (elem : Ty) (cur : Value) (v sep : String)
       (layout : Option String) (s : String) (e : GoErr), elem ≠ .uint 8 →
       (goTrimSpace v).length ≠ 0 →
       s ∈ goSplit v sep →
       parseValue tp elem (zeroValue elem) s sep layout = .error e →
       ∃ e2, parseValue tp (.slice elem) cur v sep layout = .error e2) := by
  refine ⟨?_, ?_, ?_⟩
  · intro tp elem cur sep layout h
    show parseSlice elem (fun s => parseValue tp elem (zeroValue elem) s sep layout) "" sep =
      .ok (.sliceV (some []))
    unfold parseSlice
    rw [if_neg h]
    rfl
  · intro tp elem cur layout h
    show parseSlice elem (fun s => parseValue tp elem (zeroValue elem) s "," layout) "a,b,c" "," =
      _
    unfold parseSlice
    rw [if_neg h, if_pos (by decide : (goTrimSpace "a,b,c").length ≠ 0)]
    rw [show goSplit "a,b,c" "," = ["a", "b", "c"] from rfl]
    cases hA : parseValue tp elem (zeroValue elem) "a" "," layout with
    | error e => simp only [parseElems, hA]; rfl
    | ok x =>
      cases hB : parseValue tp elem (zeroValue elem) "b" "," layout with
      | error e => simp only [parseElems, hA, hB]; rfl
      | ok y =>
        cases hC : parseValue tp elem (zeroValue elem) "c" "," layout with
        | error e => simp only [parseElems, hA, hB, hC]; rfl
        | ok z => simp only [parseElems, hA, hB, hC]; rfl
  · intro tp elem cur v sep layout s e h htrim hmem hpv
    obtain ⟨e2, h2⟩ := parseElems_error_of_mem
      (fun s2 => parseValue tp elem (zeroValue elem) s2 sep layout) (goSplit v sep) s e hmem hpv
    refine ⟨e2, ?_⟩
    show parseSlice elem (fun s2 => parseValue tp elem (zeroValue elem) s2 sep layout) v sep =
      .error e2
    unfold parseSlice
    rw [if_neg h, if_pos htrim, h2]

/-- C7 witness: the slice theorem applied to an int64 slice coercing "1,x,3",
whose middle element fails with an integer syntax error. -/
theorem claim7_witness :
    (Ty.int 64 ≠ Ty.uint 8) ∧
    (goTrimSpace "1,x,3").length ≠ 0 ∧
    "x" ∈ goSplit "1,x,3" "," ∧
    (∃ e2, parseValue timeParseNone (.slice (.int 64)) (.sliceV none) "1,x,3" "," none =
      .error e2) :=
  ⟨by decide, by decide, by decide,
   claim7_slice_coercion.2.2 timeParseNone (.int 64) (.sliceV none) "1,x,3" "," none "x"
     (.numError "ParseInt" "x" .errSyn) (by decide) (by decide) (by decide) rfl⟩

/-- C9: when the coercion of some descriptor's found raw value fails during
the env pass, the error is returned immediately: the descriptors before it
keep the mutations the pass already performed (an arbitrary successfully
processed segment) and the descriptors after it are untouched. -/
theorem claim9_env_abort
    (tp : String → String → Except GoErr Nat) (env : String → Option String) (pre : String)
    (metas1 metas2 metas1' : List StructMeta) (m : StructMeta) (raw : String) (e : GoErr)
    (h1 : readEnvVars tp env pre metas1 = (metas1', none))
    (h2 : lookupFirstEnv pre env m.envList = some raw)
    (h3 : parseValue tp m.ty m.fieldValue raw m.separator m.layout = .error e) :
    readEnvVars tp env pre (metas1 ++ m :: metas2) = (metas1' ++ m :: metas2, some e) := by
  induction metas1 generalizing metas1' with
  | nil =>
    have h0 : metas1' = [] := by
      simp [readEnvVars] at h1
      exact h1
    subst h0
    simp [readEnvVars, h2, h3]
  | cons a as ih =>
    cases hl : lookupFirstEnv pre env a.envList with
    | none =>
      cases hr : readEnvVars tp env pre as with
      | mk r1 r2 =>
        simp only [readEnvVars, hl, hr] at h1
        injection h1 with h1a h1b
        subst h1b
        rw [← h1a]
        have hstep := ih r1 hr
        simp [readEnvVars, hl, hstep]
    | some raw2 =>
      cases hp : parseValue tp a.ty a.fieldValue raw2 a.separator a.layout with
      | error e2 => simp [readEnvVars, hl, hp] at h1
      | ok v =>
        cases hr : readEnvVars tp env pre as with
        | mk r1 r2 =>
          simp only [readEnvVars, hl, hp, hr] at h1
          injection h1 with h1a h1b
          subst h1b
          rw [← h1a]
          have hstep := ih r1 hr
          simp [readEnvVars, hl, hp, hstep]

/-- C9 witness: the abort theorem at a three-descriptor pass whose first
descriptor binds S=x, whose second fails parsing B=zz as an int, and whose
third is never processed. -/
theorem claim9_witness :
    readEnvVars timeParseNone envAbort "" [metaStrOK, metaIntBad, metaTrailing] =
      ([{ metaStrOK with fieldValue := .str "x" }, metaIntBad, metaTrailing],
       some (.numError "ParseInt" "zz" .errSyn)) :=
  claim9_env_abort timeParseNone envAbort "" [metaStrOK] [metaTrailing]
    [{ metaStrOK with fieldValue := .str "x" }] metaIntBad "zz"
    (.numError "ParseInt" "zz" .errSyn) rfl rfl rfl

/-- C10: a supplied value equal to the type's zero (PORT=0 on a non-required
int field with a default literal) does not survive finalization: the env pass
writes 0, the Finalizer sees a zero field with a default, and the field ends
at the coerced default 8080 with no error (while PORT=7 survives); in general,
for every non-required descriptor whose field is zero and whose default
coerces to v, finalize writes v and continues. -/
theorem claim10_zero_overwritten_by_default :
    (ReadEnv timeParseNone cfgPortDefault "" (envOnly "PORT" "0")).2 = none ∧
    fieldVals (ReadEnv timeParseNone cfgPortDefault "" (envOnly "PORT" "0")).1 =
      [.intV 8080] ∧
    fieldVals (ReadEnv timeParseNone cfgPortDefault "" (envOnly "PORT" "7")).1 =
      [.intV 7] ∧
    (∀ (tp : String → String → Except GoErr Nat) (m : StructMeta) (rest : List StructMeta)
       (d : String) (v : Value),
       m.required = false → isZero m.fieldValue = true → m.defValue = some d →
       parseValue tp m.ty m.fieldValue d m.separator m.layout = .ok v →
       finalize tp (m :: rest) =
         ({ m with fieldValue := v } :: (finalize tp rest).1, (finalize tp rest).2)) := by
  refine ⟨rfl, rfl, rfl, ?_⟩
  intro tp m rest d v hreq hzero hdef hparse
  simp [finalize, hreq, hzero, hdef, hparse]

/-- C10 witness: the finalize step applied to the concrete zero-valued int
descriptor with default 8080. -/
theorem claim10_witness :
    metaZeroDefault.required = false ∧ isZero metaZeroDefault.fieldValue = true ∧
    metaZeroDefault.defValue = some "8080" ∧
    finalize timeParseNone [metaZeroDefault] =
      ([{ metaZeroDefault with fieldValue := .intV 8080 }], none) := by
  refine ⟨rfl, rfl, rfl, ?_⟩
  have h := claim10_zero_overwritten_by_default.2.2.2 timeParseNone metaZeroDefault []
    "8080" (.intV 8080) rfl rfl rfl rfl
  rw [h]
  rfl
